import Mathlib

/-!
# Verification of the image stitcher core

A shallow embedding of `src/image_stitcher.py`.  Images are modelled by
their pixel dimensions (the geometric claims never inspect pixel values);
Python `float` arithmetic is modelled exactly by `ℚ`; Python `int` by `ℤ`
(or `ℕ` where the value is a size); the filesystem seen by the sequential
writer is modelled by the finite set of numeric filename indices already
occupied in the output directory.
-/

namespace ImageStitcher

/-- A loaded image, reduced to its size `(w, h)` as reported by `img.size`. -/
structure Img where
  w : Nat
  h : Nat
deriving DecidableEq, Repr

/-- The two failures `stitch_images` can raise (`ValueError` messages at
lines 44 and 52 of the source). -/
inductive StitchError
  | emptyInput
  | invalidOrientation
deriving DecidableEq, Repr

/-- The geometric content of the composed canvas: its dimensions and the
list of `(x, y, image)` paste operations, in order. -/
structure StitchOut where
  canvasW : Int
  canvasH : Int
  pastes : List (Int × Int × Img)
deriving DecidableEq, Repr

/-- Python `max` over a non-empty list (`max(widths)`); `0` on `[]`,
a case the source never reaches (guarded by the empty-input check). -/
def maxList : List Nat → Nat
  | [] => 0
  | x :: xs => xs.foldl max x

/-- Python `min` over a non-empty list (`min(widths)`). -/
def minList : List Nat → Nat
  | [] => 0
  | x :: xs => xs.foldl min x

/-- Python 3 `round` on an exact rational: round half to even. -/
def pyRound (q : ℚ) : ℤ :=
  if q - ⌊q⌋ < 1/2 then ⌊q⌋
  else if 1/2 < q - ⌊q⌋ then ⌊q⌋ + 1
  else if ⌊q⌋ % 2 = 0 then ⌊q⌋ else ⌊q⌋ + 1

/-- Source lines 60-65: in vertical orientation an image keeps its size when
`w == edge`, else is resized to `(edge, max(1, int(round(h * r))))` with
`r = edge / w`. -/
def resizeV (edge : Nat) (img : Img) : Img :=
  if img.w = edge then img
  else { w := edge
         h := (max 1 (pyRound ((img.h : ℚ) * ((edge : ℚ) / (img.w : ℚ))))).toNat }

/-- Source lines 70-76: the symmetric rule on heights for horizontal
orientation. -/
def resizeH (edge : Nat) (img : Img) : Img :=
  if img.h = edge then img
  else { w := (max 1 (pyRound ((img.w : ℚ) * ((edge : ℚ) / (img.h : ℚ))))).toNat
         h := edge }

/-- Source lines 57 and 68: `edge = max(dims) if target_edge_mode == "max"
else min(dims)` (note: any string other than `"max"` selects the minimum). -/
def targetEdge (targetEdgeMode : String) (dims : List Nat) : Nat :=
  if targetEdgeMode = "max" then maxList dims else minList dims

/-- Source lines 55-77: the `scale_to_align_edge` block of `stitch_images`. -/
def alignImages (orientation targetEdgeMode : String) (images : List Img) : List Img :=
  if orientation = "vertical" then
    images.map (resizeV (targetEdge targetEdgeMode (images.map Img.w)))
  else
    images.map (resizeH (targetEdge targetEdgeMode (images.map Img.h)))

/-- Source lines 92-97: the vertical paste loop.  Starting offset `y`,
each image is pasted at `(0, y)` and `y` advances by `h + spacing`. -/
def pastesV (spacing : Int) : Int → List Img → List (Int × Int × Img)
  | _, [] => []
  | y, img :: rest => (0, y, img) :: pastesV spacing (y + img.h + spacing) rest

/-- Source lines 103-108: the horizontal paste loop. -/
def pastesH (spacing : Int) : Int → List Img → List (Int × Int × Img)
  | _, [] => []
  | x, img :: rest => (x, 0, img) :: pastesH spacing (x + img.w + spacing) rest

/-- Source lines 34-109, `stitch_images`, restricted to its geometric
content (background colour and pixel transfer abstracted away).  The
orientation validity check of line 51 is folded into the dispatch: a string
other than `"vertical"`/`"horizontal"` raises `InvalidOrientation`. -/
def stitch_images (images : List Img) (orientation : String)
    (scale_to_align_edge : Bool) (spacing : Int) (target_edge_mode : String) :
    Except StitchError StitchOut :=
  if images = [] then .error .emptyInput
  else if orientation = "vertical" then
    let imgs := if scale_to_align_edge then alignImages orientation target_edge_mode images
                else images
    let widths := imgs.map Img.w
    let heights := imgs.map Img.h
    .ok { canvasW := (maxList widths : Int)
          canvasH := (heights.sum : Int) +
            spacing * (if 1 < imgs.length then (imgs.length : Int) - 1 else 0)
          pastes := pastesV spacing 0 imgs }
  else if orientation = "horizontal" then
    let imgs := if scale_to_align_edge then alignImages orientation target_edge_mode images
                else images
    let widths := imgs.map Img.w
    let heights := imgs.map Img.h
    .ok { canvasW := (widths.sum : Int) +
            spacing * (if 1 < imgs.length then (imgs.length : Int) - 1 else 0)
          canvasH := (maxList heights : Int)
          pastes := pastesH spacing 0 imgs }
  else .error .invalidOrientation

/-! ## Helper lemmas about the paste loops -/

theorem pastesV_length (spacing : Int) (y : Int) (l : List Img) :
    (pastesV spacing y l).length = l.length := by
  induction l generalizing y with
  | nil => rfl
  | cons img rest ih => simp [pastesV, ih]

theorem pastesH_length (spacing : Int) (x : Int) (l : List Img) :
    (pastesH spacing x l).length = l.length := by
  induction l generalizing x with
  | nil => rfl
  | cons img rest ih => simp [pastesH, ih]

theorem pastesV_getElem? (spacing : Int) (l : List Img) :
    ∀ (y : Int) (k : Nat) (img : Img), l[k]? = some img →
      (pastesV spacing y l)[k]? =
        some (0, y + (((l.take k).map Img.h).sum : Int) + spacing * k, img) := by
  induction l with
  | nil => intro y k img h; simp at h
  | cons i0 rest ih =>
    intro y k img h
    cases k with
    | zero =>
      simp at h
      subst h
      simp [pastesV]
    | succ k =>
      simp only [List.getElem?_cons_succ] at h
      have := ih (y + i0.h + spacing) k img h
      simp only [pastesV, List.getElem?_cons_succ, this, List.take_succ_cons,
        List.map_cons, List.sum_cons]
      congr 2
      push_cast
      ring_nf

theorem pastesH_getElem? (spacing : Int) (l : List Img) :
    ∀ (x : Int) (k : Nat) (img : Img), l[k]? = some img →
      (pastesH spacing x l)[k]? =
        some (x + (((l.take k).map Img.w).sum : Int) + spacing * k, 0, img) := by
  induction l with
  | nil => intro x k img h; simp at h
  | cons i0 rest ih =>
    intro x k img h
    cases k with
    | zero =>
      simp at h
      subst h
      simp [pastesH]
    | succ k =>
      simp only [List.getElem?_cons_succ] at h
      have := ih (x + i0.w + spacing) k img h
      simp only [pastesH, List.getElem?_cons_succ, this, List.take_succ_cons,
        List.map_cons, List.sum_cons]
      congr 2
      push_cast
      ring_nf

theorem stitch_images_vertical (images : List Img) (a : Bool) (spacing : Int)
    (tm : String) (hne : images ≠ []) :
    stitch_images images "vertical" a spacing tm =
      (let imgs := if a then alignImages "vertical" tm images else images
       .ok { canvasW := (maxList (imgs.map Img.w) : Int)
             canvasH := ((imgs.map Img.h).sum : Int) +
               spacing * (if 1 < imgs.length then (imgs.length : Int) - 1 else 0)
             pastes := pastesV spacing 0 imgs }) := by
  rw [stitch_images, if_neg hne]
  rfl

theorem stitch_images_horizontal (images : List Img) (a : Bool) (spacing : Int)
    (tm : String) (hne : images ≠ []) :
    stitch_images images "horizontal" a spacing tm =
      (let imgs := if a then alignImages "horizontal" tm images else images
       .ok { canvasW := ((imgs.map Img.w).sum : Int) +
               spacing * (if 1 < imgs.length then (imgs.length : Int) - 1 else 0)
             canvasH := (maxList (imgs.map Img.h) : Int)
             pastes := pastesH spacing 0 imgs }) := by
  rw [stitch_images, if_neg hne]
  rfl

theorem spacing_factor_eq (n : Nat) (hn : n ≠ 0) :
    (if 1 < n then (n : Int) - 1 else 0) = (n : Int) - 1 := by
  split
  · rfl
  · have : n = 1 := by omega
    subst this
    simp

/-- C1: with `alignEdge` off, vertical composition yields canvas width
`max(widths)`, canvas height `sum(heights) + spacing × (n − 1)`, and pastes
image `k` at `(0, Σ_{i<k} hᵢ + spacing·k)`; symmetrically, horizontal
composition yields canvas height `max(heights)`, canvas width
`sum(widths) + spacing × (n − 1)`, and pastes image `k` at
`(Σ_{i<k} wᵢ + spacing·k, 0)`. -/
theorem stitch_noAlign_geometry (images : List Img) (spacing : Int) (tm : String)
    (hne : images ≠ []) :
    (∃ out, stitch_images images "vertical" false spacing tm = .ok out ∧
       out.canvasW = (maxList (images.map Img.w) : Int) ∧
       out.canvasH = ((images.map Img.h).sum : Int) + spacing * ((images.length : Int) - 1) ∧
       out.pastes.length = images.length ∧
       ∀ (k : Nat) (img : Img), images[k]? = some img →
         out.pastes[k]? =
           some (0, (((images.take k).map Img.h).sum : Int) + spacing * k, img)) ∧
    (∃ out, stitch_images images "horizontal" false spacing tm = .ok out ∧
       out.canvasH = (maxList (images.map Img.h) : Int) ∧
       out.canvasW = ((images.map Img.w).sum : Int) + spacing * ((images.length : Int) - 1) ∧
       out.pastes.length = images.length ∧
       ∀ (k : Nat) (img : Img), images[k]? = some img →
         out.pastes[k]? =
           some ((((images.take k).map Img.w).sum : Int) + spacing * k, 0, img)) := by
  have hlen : images.length ≠ 0 := fun h => hne (List.eq_nil_of_length_eq_zero h)
  constructor
  · refine ⟨_, stitch_images_vertical images false spacing tm hne, ?_, ?_, ?_, ?_⟩
    · rfl
    · exact congrArg (((images.map Img.h).sum : Int) + spacing * ·)
        (spacing_factor_eq images.length hlen)
    · exact pastesV_length spacing 0 images
    · intro k img hk
      show (pastesV spacing 0 images)[k]? = _
      rw [pastesV_getElem? spacing images 0 k img hk]
      simp
  · refine ⟨_, stitch_images_horizontal images false spacing tm hne, ?_, ?_, ?_, ?_⟩
    · rfl
    · exact congrArg (((images.map Img.w).sum : Int) + spacing * ·)
        (spacing_factor_eq images.length hlen)
    · exact pastesH_length spacing 0 images
    · intro k img hk
      show (pastesH spacing 0 images)[k]? = _
      rw [pastesH_getElem? spacing images 0 k img hk]
      simp

/-- Witness for C1: two images 2×3 and 4×5, spacing 10, composed vertically:
canvas 4×18, second image pasted at `(0, 13)`. -/
theorem stitch_noAlign_geometry_witness :
    (([Img.mk 2 3, Img.mk 4 5] : List Img) ≠ []) ∧
    ∃ out, stitch_images [Img.mk 2 3, Img.mk 4 5] "vertical" false 10 "max" = .ok out ∧
      out.canvasW = 4 ∧ out.canvasH = 18 ∧ out.pastes[1]? = some (0, 13, Img.mk 4 5) := by
  have h := stitch_noAlign_geometry [Img.mk 2 3, Img.mk 4 5] 10 "max" (by decide)
  refine ⟨by decide, ?_⟩
  obtain ⟨out, ho, hw, hh, _, hp⟩ := h.1
  exact ⟨out, ho, hw.trans (by decide), hh.trans (by decide),
    (hp 1 (Img.mk 4 5) (by decide)).trans (by decide)⟩

/-- C2: with `alignEdge` on, the target edge is the maximum of the input
edges when `targetEdgeMode = "max"` and the minimum when `"min"`; in
vertical orientation every image whose width differs from the target width
`W` is resized to width `W` and height `max(1, round(h × W / w))`, images
already at width `W` are left unresized; symmetrically on heights for
horizontal orientation. -/
theorem alignImages_edge (images : List Img) (tm : String)
    (_hne : images ≠ []) (_htm : tm = "max" ∨ tm = "min") :
    ((∀ img ∈ images, 0 < img.w) →
      (alignImages "vertical" tm images).length = images.length ∧
      ∀ (k : Nat) (img : Img), images[k]? = some img →
        (alignImages "vertical" tm images)[k]? =
          some (if img.w = targetEdge tm (images.map Img.w) then img
                else { w := targetEdge tm (images.map Img.w)
                       h := (max 1 (pyRound ((img.h : ℚ) *
                              (targetEdge tm (images.map Img.w) : ℚ) / (img.w : ℚ)))).toNat })) ∧
    ((∀ img ∈ images, 0 < img.h) →
      (alignImages "horizontal" tm images).length = images.length ∧
      ∀ (k : Nat) (img : Img), images[k]? = some img →
        (alignImages "horizontal" tm images)[k]? =
          some (if img.h = targetEdge tm (images.map Img.h) then img
                else { w := (max 1 (pyRound ((img.w : ℚ) *
                              (targetEdge tm (images.map Img.h) : ℚ) / (img.h : ℚ)))).toNat
                       h := targetEdge tm (images.map Img.h) })) := by
  constructor
  · intro _
    constructor
    · show (images.map (resizeV _)).length = _
      exact images.length_map _
    · intro k img hk
      show (images.map (resizeV _))[k]? = _
      rw [List.getElem?_map, hk, Option.map_some', resizeV, mul_div_assoc]
  · intro _
    constructor
    · show (images.map (resizeH _)).length = _
      exact images.length_map _
    · intro k img hk
      show (images.map (resizeH _))[k]? = _
      rw [List.getElem?_map, hk, Option.map_some', resizeH, mul_div_assoc]

/-- Witness for C2: images 2×3 and 4×5 aligned vertically with mode `max`:
target width 4, first image resized to 4×6 (`round(3 × 4 / 2) = 6`),
second image left untouched. -/
theorem alignImages_edge_witness :
    (([Img.mk 2 3, Img.mk 4 5] : List Img) ≠ []) ∧
    (alignImages "vertical" "max" [Img.mk 2 3, Img.mk 4 5])[0]? = some (Img.mk 4 6) ∧
    (alignImages "vertical" "max" [Img.mk 2 3, Img.mk 4 5])[1]? = some (Img.mk 4 5) := by
  have h := (alignImages_edge [Img.mk 2 3, Img.mk 4 5] "max" (by decide)
    (Or.inl rfl)).1 (by decide)
  refine ⟨by decide, ?_, ?_⟩
  · rw [h.2 0 (Img.mk 2 3) (by decide)]
    norm_num [targetEdge, maxList, pyRound]
    decide
  · rw [h.2 1 (Img.mk 4 5) (by decide)]
    decide

/-! ## Preview controller: fit-to-width and display scaling -/

/-- Source lines 541-548, `fit_preview_width`, as a function of the two
pixel widths it reads: `canvas_w = max(1, winfo_width())`,
`img_w = max(1, size[0])`, `scale = min(3.0, max(0.05, canvas_w*0.98/img_w))`.
`0.98 = 49/50` and `0.05 = 1/20` exactly. -/
def fit_preview_width (canvas_w_raw img_w_raw : Int) : ℚ :=
  let canvas_w : ℚ := max 1 (canvas_w_raw : ℚ)
  let img_w : ℚ := max 1 (img_w_raw : ℚ)
  min 3 (max (1/20) ((canvas_w * (49/50)) / img_w))

/-- The specification's formulation: `clamp(x, lo, hi)`. -/
def clamp_spec (x lo hi : ℚ) : ℚ := max lo (min hi x)

/-- C7: for positive viewport and composed widths, `fit_preview_width`
equals `clamp(viewport × 0.98 / composed, 0.05, 3.0)`; in particular at
viewport 1000 and composed width 2000 it returns `0.49`. -/
theorem fit_preview_width_clamp :
    (∀ v c : Int, 0 < v → 0 < c →
      fit_preview_width v c = clamp_spec ((v : ℚ) * (49/50) / (c : ℚ)) (1/20) 3) ∧
    fit_preview_width 1000 2000 = 49/100 := by
  constructor
  · intro v c hv hc
    have hv' : max 1 (v : ℚ) = (v : ℚ) := by
      apply max_eq_right
      exact_mod_cast hv
    have hc' : max 1 (c : ℚ) = (c : ℚ) := by
      apply max_eq_right
      exact_mod_cast hc
    rw [fit_preview_width, clamp_spec]
    rw [hv', hc', min_max_distrib_left]
    norm_num
  · rw [fit_preview_width]
    norm_num

/-- Witness for C7: the theorem applied at viewport 1000, composed 2000. -/
theorem fit_preview_width_clamp_witness :
    fit_preview_width 1000 2000 = clamp_spec ((1000 : ℚ) * (49/50) / (2000 : ℚ)) (1/20) 3 :=
  fit_preview_width_clamp.1 1000 2000 (by norm_num) (by norm_num)

/-- Source lines 520-523 of `render_preview_scaled`: the display-buffer
dimensions.  `scale = max(0.05, min(3.0, preview_scale))`,
`sw = max(1, int(W*scale))`, `sh = max(1, int(H*scale))`; Python `int()`
truncates, which on these non-negative values is the floor. -/
def render_scaled_dims (W H : Nat) (scaleVar : ℚ) : Nat × Nat :=
  let scale := max (1/20) (min 3 scaleVar)
  (max 1 (Int.toNat ⌊(W : ℚ) * scale⌋), max 1 (Int.toNat ⌊(H : ℚ) * scale⌋))

/-- The mutable preview state: the cached full-resolution composed image
(`self.preview_img_full`), what the canvas currently shows (`None` after
`_draw_preview(None)`, otherwise the drawn buffer's dimensions), the text of
`size_label`, and the `preview_scale` variable. -/
structure PreviewState where
  previewImgFull : Option StitchOut
  canvasImage : Option (Nat × Nat)
  sizeLabel : String
  previewScale : ℚ
deriving DecidableEq, Repr

/-- The percent figure `int(scale*100)` of the size label (truncation =
floor, as scale > 0). -/
def pctLabel (scale : ℚ) : Nat := Int.toNat ⌊scale * 100⌋

/-- Source lines 517-528, `render_preview_scaled`, at state level: reads the
cached composed image and the scale variable, draws a fresh scaled buffer
and updates the label; returns unchanged when there is no cached image or
live preview is off.  The scaled buffer is new — `preview_img_full` is not
written. -/
def render_preview_scaled (live : Bool) (st : PreviewState) : PreviewState :=
  match st.previewImgFull with
  | none => st
  | some img =>
    if live then
      let W := img.canvasW.toNat
      let H := img.canvasH.toNat
      let d := render_scaled_dims W H st.previewScale
      { st with canvasImage := some d
                sizeLabel := Nat.repr W ++ "×" ++ Nat.repr H ++ " @ " ++
                  Nat.repr (pctLabel (max (1/20) (min 3 st.previewScale))) ++ "%" }
    else st

/-- Source lines 487-515, `render_preview_full`: the debounced full
recompute.  `paths` is the working list (already loaded to sizes),
`spacingRaw` the result of `int(self.var_spacing.get())` (`none` when the
entry does not parse), `canvasWpx` the current viewport width.  Note line
497-498: an invalid spacing returns early, leaving the whole preview state
untouched. -/
def render_preview_full (paths : List Img) (live : Bool) (spacingRaw : Option Int)
    (orientation : String) (alignEdge : Bool) (targetEdgeMode : String)
    (canvasWpx : Int) (st : PreviewState) : PreviewState :=
  if paths = [] ∨ live = false then
    { st with previewImgFull := none, canvasImage := none, sizeLabel := "" }
  else
    match spacingRaw with
    | none => st
    | some spacing =>
      if spacing < 0 then st
      else
        match stitch_images paths orientation alignEdge spacing targetEdgeMode with
        | .ok img =>
          let st1 := { st with previewImgFull := some img }
          let st2 := { st1 with previewScale := fit_preview_width canvasWpx img.canvasW }
          render_preview_scaled live st2
        | .error _ =>
          { st with previewImgFull := none, canvasImage := none,
                    sizeLabel := "預覽失敗" }

/-! ## Output writer -/

/-- The parameter snapshot `run_stitch` reads from the UI variables. -/
structure Params where
  orientation : String
  alignEdge : Bool
  spacingRaw : Option Int
  targetEdgeMode : String
  outputMode : String
  directExt : String
  outDir : String
  autoReset : Bool
deriving DecidableEq, Repr

/-- The state `run_stitch` mutates: the working list and the sequential
next-index variable `var_direct_index`. -/
structure AppState where
  paths : List Img
  directIndex : Int
deriving DecidableEq, Repr

/-- The external world as the writer sees it: the save-dialog result
(`""` on cancel), whether the output directory exists, the set of numeric
filename indices already occupied in it (for the chosen extension), and
whether the encode/write call succeeds. -/
structure Fs where
  singleDialogPath : String
  outDirExists : Bool
  occupied : List Nat
  saveOk : Bool
deriving DecidableEq, Repr

/-- The outcome: the next app state and the filename written (if any). -/
structure RunResult where
  state : AppState
  written : Option String
deriving DecidableEq, Repr

/-- Python `str.lower`, character-wise. -/
def strLower (s : String) : String := String.mk (s.data.map Char.toLower)

def isSpaceChar (c : Char) : Bool := c = ' ' || c = '\t' || c = '\n' || c = '\r'

/-- Python `str.strip`. -/
def strStrip (s : String) : String :=
  String.mk (((s.data.dropWhile isSpaceChar).reverse.dropWhile isSpaceChar).reverse)

/-- Source lines 618-620: `while os.path.exists(save_path): idx += 1`.
Fueled version of the unbounded probe; `occupied.length + 1` steps always
suffice to reach a free index (pigeonhole), so `findFree` below computes
exactly what the loop does. -/
def findFreeGo (occupied : List Nat) : Nat → Nat → Nat
  | 0, idx => idx
  | fuel + 1, idx =>
    if idx ∈ occupied then findFreeGo occupied fuel (idx + 1) else idx

/-- The index at which the probing loop of lines 617-620 stops. -/
def findFree (occupied : List Nat) (idx : Nat) : Nat :=
  findFreeGo occupied (occupied.length + 1) idx

/-- Source lines 614-615: `ext = self.var_direct_ext.get().lower()`;
anything outside `png`/`jpg`/`webp` falls back to `png`. -/
def extNorm (e : String) : String :=
  let el := strLower e
  if el = "png" ∨ el = "jpg" ∨ el = "webp" then el else "png"

/-- Source lines 633-636: `if success_path and self.var_auto_reset.get():
self.clear_all(); self.var_direct_index.set(1)`. -/
def autoResetStep (auto : Bool) (st : AppState) (written : Option String) : RunResult :=
  match written with
  | some p => if auto then ⟨{ paths := [], directIndex := 1 }, some p⟩ else ⟨st, some p⟩
  | none => ⟨st, none⟩

/-- Source lines 551-636, `run_stitch`: validation, composition, then the
single-shot or sequential write, then the optional auto-reset.  Message
boxes and the progress bar are abstracted away; every early `return`
yields the unchanged state with nothing written. -/
def run_stitch (st : AppState) (ps : Params) (fs : Fs) : RunResult :=
  if st.paths = [] then ⟨st, none⟩
  else
    match ps.spacingRaw with
    | none => ⟨st, none⟩
    | some spacing =>
      if spacing < 0 then ⟨st, none⟩
      else
        match stitch_images st.paths ps.orientation ps.alignEdge spacing ps.targetEdgeMode with
        | .error _ => ⟨st, none⟩
        | .ok _ =>
          if ps.outputMode = "single" then
            if fs.singleDialogPath = "" then ⟨st, none⟩
            else if fs.saveOk then
              autoResetStep ps.autoReset st (some fs.singleDialogPath)
            else ⟨st, none⟩
          else
            if strStrip ps.outDir = "" then ⟨st, none⟩
            else if fs.outDirExists then
              if st.directIndex < 1 then ⟨st, none⟩
              else
                let j := findFree fs.occupied st.directIndex.toNat
                if fs.saveOk then
                  autoResetStep ps.autoReset { st with directIndex := (j : Int) + 1 }
                    (some (Nat.repr j ++ "." ++ extNorm ps.directExt))
                else ⟨st, none⟩
            else ⟨st, none⟩

/-! ## Correctness of the collision probe -/

theorem exists_free_index (l : List Nat) (i : Nat) :
    ∃ d, d ≤ l.length ∧ i + d ∉ l := by
  by_contra h
  push_neg at h
  have hsub : (Finset.range (l.length + 1)).image (fun d => i + d) ⊆ l.toFinset := by
    intro x hx
    simp only [Finset.mem_image, Finset.mem_range] at hx
    obtain ⟨d, hd, rfl⟩ := hx
    exact List.mem_toFinset.mpr (h d (by omega))
  have hcard := Finset.card_le_card hsub
  rw [Finset.card_image_of_injective _ (fun a b hab => by omega),
    Finset.card_range] at hcard
  have := l.toFinset_card_le
  omega

theorem findFreeGo_spec (l : List Nat) :
    ∀ (fuel i : Nat), (∃ d, d < fuel ∧ i + d ∉ l) →
      i ≤ findFreeGo l fuel i ∧ findFreeGo l fuel i ∉ l ∧
        ∀ m, i ≤ m → m < findFreeGo l fuel i → m ∈ l := by
  intro fuel
  induction fuel with
  | zero =>
    rintro i ⟨d, hd, -⟩
    omega
  | succ fuel ih =>
    rintro i ⟨d, hd, hfree⟩
    rw [findFreeGo]
    by_cases hmem : i ∈ l
    · rw [if_pos hmem]
      obtain ⟨d', rfl⟩ : ∃ d', d = d' + 1 := by
        refine ⟨d - 1, ?_⟩
        rcases Nat.eq_zero_or_pos d with rfl | hpos
        · exact absurd hfree (by simpa using hmem)
        · omega
      obtain ⟨h1, h2, h3⟩ := ih (i + 1) ⟨d', by omega, by rwa [show i+1+d' = i+(d'+1) by omega]⟩
      refine ⟨by omega, h2, ?_⟩
      intro m hm1 hm2
      rcases Nat.eq_or_lt_of_le hm1 with rfl | hlt
      · exact hmem
      · exact h3 m (by omega) hm2
    · rw [if_neg hmem]
      exact ⟨Nat.le_refl i, hmem, fun m h1 h2 => by omega⟩

/-- The probing loop stops at the smallest free index `≥` its start. -/
theorem findFree_spec (l : List Nat) (i : Nat) :
    i ≤ findFree l i ∧ findFree l i ∉ l ∧
      ∀ m, i ≤ m → m < findFree l i → m ∈ l := by
  obtain ⟨d, hd, hfree⟩ := exists_free_index l i
  exact findFreeGo_spec l (l.length + 1) i ⟨d, by omega, hfree⟩

/-- Every run either changes nothing and writes nothing, or ends in the
auto-reset step with a written filename. -/
theorem run_stitch_shape (st : AppState) (ps : Params) (fs : Fs) :
    run_stitch st ps fs = ⟨st, none⟩ ∨
    ∃ st' p, run_stitch st ps fs = autoResetStep ps.autoReset st' (some p) := by
  rw [run_stitch]
  repeat' split
  all_goals first
    | exact Or.inl rfl
    | exact Or.inr ⟨_, _, rfl⟩

/-- C3: in sequential mode, with a valid configuration and a successful
write, the file written is `j.ext` where `j` is the smallest index `≥` the
start index whose name is not already occupied (so no existing file is
overwritten), and the counter is left at `j + 1` (auto-reset off). -/
theorem run_stitch_sequential (st : AppState) (ps : Params) (fs : Fs) (s : Int)
    (hmode : ps.outputMode = "direct")
    (hpaths : st.paths ≠ [])
    (hsp : ps.spacingRaw = some s) (hs : 0 ≤ s)
    (hor : ps.orientation = "vertical")
    (hdir : strStrip ps.outDir ≠ "")
    (hex : fs.outDirExists = true)
    (hidx : 1 ≤ st.directIndex)
    (hsave : fs.saveOk = true)
    (har : ps.autoReset = false) :
    (run_stitch st ps fs).written =
      some (Nat.repr (findFree fs.occupied st.directIndex.toNat) ++ "." ++
        extNorm ps.directExt) ∧
    st.directIndex.toNat ≤ findFree fs.occupied st.directIndex.toNat ∧
    findFree fs.occupied st.directIndex.toNat ∉ fs.occupied ∧
    (∀ m, st.directIndex.toNat ≤ m → m < findFree fs.occupied st.directIndex.toNat →
      m ∈ fs.occupied) ∧
    (run_stitch st ps fs).state.directIndex =
      (findFree fs.occupied st.directIndex.toNat : Int) + 1 ∧
    (run_stitch st ps fs).state.paths = st.paths := by
  have hrun : run_stitch st ps fs =
      ⟨{ st with directIndex := (findFree fs.occupied st.directIndex.toNat : Int) + 1 },
        some (Nat.repr (findFree fs.occupied st.directIndex.toNat) ++ "." ++
          extNorm ps.directExt)⟩ := by
    rw [run_stitch, if_neg hpaths, hsp]
    simp only
    rw [if_neg (not_lt.mpr hs), hor,
      stitch_images_vertical st.paths ps.alignEdge s ps.targetEdgeMode hpaths]
    simp only
    rw [hmode]
    simp only [String.reduceEq, if_false, if_neg hdir, hex, if_true,
      if_neg (not_lt.mpr hidx), hsave]
    rw [autoResetStep, har]
    simp
  obtain ⟨h1, h2, h3⟩ := findFree_spec fs.occupied st.directIndex.toNat
  rw [hrun]
  exact ⟨rfl, h1, h2, h3, rfl, rfl⟩

/-- Witness for C3: files `1.png`–`5.png` present, start index 1 — the run
writes `6.png` and leaves the counter at 7. -/
theorem run_stitch_sequential_witness :
    (run_stitch ⟨[Img.mk 1 1], 1⟩
        ⟨"vertical", false, some 0, "max", "direct", "png", "/out", false⟩
        ⟨"", true, [1, 2, 3, 4, 5], true⟩).written = some "6.png" ∧
    (run_stitch ⟨[Img.mk 1 1], 1⟩
        ⟨"vertical", false, some 0, "max", "direct", "png", "/out", false⟩
        ⟨"", true, [1, 2, 3, 4, 5], true⟩).state.directIndex = 7 := by
  have h := run_stitch_sequential ⟨[Img.mk 1 1], 1⟩
    ⟨"vertical", false, some 0, "max", "direct", "png", "/out", false⟩
    ⟨"", true, [1, 2, 3, 4, 5], true⟩ 0
    rfl (by decide) rfl (by decide) rfl (by decide) rfl (by decide) rfl rfl
  exact ⟨h.1.trans (by decide), h.2.2.2.2.1.trans (by decide)⟩

/-- C4: if the encode/write step fails, the working list, the sequential
counter — the whole mutable state — are unchanged and nothing is written,
so in particular auto-reset does not run. -/
theorem run_stitch_write_failed (st : AppState) (ps : Params) (fs : Fs)
    (hsave : fs.saveOk = false) :
    run_stitch st ps fs = ⟨st, none⟩ := by
  rw [run_stitch]
  repeat' split
  all_goals first
    | rfl
    | simp_all

/-- Witness for C4: a fully valid sequential configuration whose save call
fails leaves the state `⟨[1×1 image], counter 3⟩` untouched. -/
theorem run_stitch_write_failed_witness :
    run_stitch ⟨[Img.mk 1 1], 3⟩
        ⟨"vertical", false, some 0, "max", "direct", "png", "/out", true⟩
        ⟨"", true, [3], false⟩ =
      ⟨⟨[Img.mk 1 1], 3⟩, none⟩ :=
  run_stitch_write_failed _ _ _ rfl

/-- C10: whenever a run writes a file and auto-reset is enabled — in either
output mode — the working list is cleared and the sequential next-index is
reset to 1. -/
theorem run_stitch_auto_reset (st : AppState) (ps : Params) (fs : Fs)
    (hauto : ps.autoReset = true)
    (hwritten : (run_stitch st ps fs).written.isSome = true) :
    (run_stitch st ps fs).state.paths = [] ∧
    (run_stitch st ps fs).state.directIndex = 1 := by
  rcases run_stitch_shape st ps fs with h | ⟨st', p, h⟩
  · rw [h] at hwritten
    simp at hwritten
  · rw [h, hauto]
    exact ⟨rfl, rfl⟩

/-- Witness for C10: a successful single-shot write with auto-reset on also
resets the counter (from 5) to 1 and clears the list. -/
theorem run_stitch_auto_reset_witness :
    (run_stitch ⟨[Img.mk 1 1], 5⟩
        ⟨"vertical", false, some 0, "max", "single", "png", "", true⟩
        ⟨"out.png", false, [], true⟩).state.paths = [] ∧
    (run_stitch ⟨[Img.mk 1 1], 5⟩
        ⟨"vertical", false, some 0, "max", "single", "png", "", true⟩
        ⟨"out.png", false, [], true⟩).state.directIndex = 1 :=
  run_stitch_auto_reset _ _ _ rfl (by decide)

/-- C9: an empty working list makes `stitch_images` fail with `EmptyInput`,
makes `run_stitch` return with nothing written and nothing changed, and
makes the preview clear the cached image and display nothing. -/
theorem empty_input_behaviour :
    (∀ (o : String) (a : Bool) (s : Int) (tm : String),
      stitch_images [] o a s tm = .error .emptyInput) ∧
    (∀ (st : AppState) (ps : Params) (fs : Fs), st.paths = [] →
      run_stitch st ps fs = ⟨st, none⟩) ∧
    (∀ (live : Bool) (sp : Option Int) (o : String) (a : Bool) (tm : String)
       (cw : Int) (st : PreviewState),
      render_preview_full [] live sp o a tm cw st =
        { st with previewImgFull := none, canvasImage := none, sizeLabel := "" }) := by
  refine ⟨fun o a s tm => rfl, fun st ps fs h => ?_, fun live sp o a tm cw st => ?_⟩
  · rw [run_stitch, if_pos h]
  · rfl

/-- Witness for C9: the second conjunct applied to a concrete empty state. -/
theorem empty_input_behaviour_witness :
    run_stitch ⟨[], 4⟩
        ⟨"vertical", true, some 0, "max", "single", "png", "", false⟩
        ⟨"x.png", true, [], true⟩ =
      ⟨⟨[], 4⟩, none⟩ :=
  empty_input_behaviour.2.1 _ _ _ rfl

/-! ## Preview failure handling (C5) -/

/-- Counterexample to C5: with a composed image cached and displayed, a
recompute attempt with invalid spacing `-1` leaves the whole preview state —
including the cached composed image and the displayed content — unchanged
(source line 497-498 returns early), instead of clearing the cache and
showing the failure marker as the claim requires. -/
theorem preview_invalid_spacing_keeps_stale :
    render_preview_full [Img.mk 2 2] true (some (-1)) "vertical" false "max" 800
        ⟨some ⟨2, 2, [(0, 0, Img.mk 2 2)]⟩, some (1, 1), "2×2 @ 50%", 1/2⟩ =
      ⟨some ⟨2, 2, [(0, 0, Img.mk 2 2)]⟩, some (1, 1), "2×2 @ 50%", 1/2⟩ ∧
    (render_preview_full [Img.mk 2 2] true (some (-1)) "vertical" false "max" 800
        ⟨some ⟨2, 2, [(0, 0, Img.mk 2 2)]⟩, some (1, 1), "2×2 @ 50%", 1/2⟩).previewImgFull ≠
      none := by
  refine ⟨rfl, ?_⟩
  rw [show render_preview_full [Img.mk 2 2] true (some (-1)) "vertical" false "max" 800
      ⟨some ⟨2, 2, [(0, 0, Img.mk 2 2)]⟩, some (1, 1), "2×2 @ 50%", 1/2⟩ =
      ⟨some ⟨2, 2, [(0, 0, Img.mk 2 2)]⟩, some (1, 1), "2×2 @ 50%", 1/2⟩ from rfl]
  simp

/-- C5 as amended: when the compose step itself fails the cached image is
cleared and the failure marker is shown; but when the spacing parameter is
invalid (unparsable or negative) the recompute returns early and leaves the
previous preview state — including any previously composed image —
visible and unchanged. -/
theorem render_preview_full_failure (paths : List Img) (sp : Option Int)
    (o : String) (a : Bool) (tm : String) (cw : Int) (st : PreviewState) :
    (paths ≠ [] → (sp = none ∨ ∃ s, sp = some s ∧ s < 0) →
      render_preview_full paths true sp o a tm cw st = st) ∧
    (∀ s e, paths ≠ [] → sp = some s → 0 ≤ s →
      stitch_images paths o a s tm = .error e →
      render_preview_full paths true sp o a tm cw st =
        { st with previewImgFull := none, canvasImage := none,
                  sizeLabel := "預覽失敗" }) := by
  constructor
  · intro hne hsp
    rw [render_preview_full.eq_def, if_neg (by simp [hne])]
    rcases hsp with rfl | ⟨s, rfl, hs⟩
    · rfl
    · simp only
      rw [if_pos hs]
  · intro s e hne hsp hs herr
    subst hsp
    rw [render_preview_full.eq_def, if_neg (by simp [hne])]
    simp only
    rw [if_neg (not_lt.mpr hs), herr]

/-- Witness for C5 (amended): invalid spacing `-1` on a blank preview state
leaves it unchanged. -/
theorem render_preview_full_failure_witness :
    render_preview_full [Img.mk 2 2] true (some (-1)) "vertical" false "max" 800
        ⟨none, none, "", 1⟩ =
      ⟨none, none, "", 1⟩ :=
  (render_preview_full_failure [Img.mk 2 2] (some (-1)) "vertical" false "max" 800
      ⟨none, none, "", 1⟩).1 (by decide) (Or.inr ⟨-1, rfl, by norm_num⟩)

/-! ## Display scaling dimensions (C8) -/

theorem scaled_dim_spec (n : Nat) (c : ℚ) :
    1 ≤ max 1 (Int.toNat ⌊(n : ℚ) * c⌋) ∧
    (1 ≤ (n : ℚ) * c →
      (((max 1 (Int.toNat ⌊(n : ℚ) * c⌋) : ℕ) : ℚ) ≤ (n : ℚ) * c ∧
        (n : ℚ) * c < ((max 1 (Int.toNat ⌊(n : ℚ) * c⌋) : ℕ) : ℚ) + 1)) ∧
    ((n : ℚ) * c < 1 → max 1 (Int.toNat ⌊(n : ℚ) * c⌋) = 1) := by
  refine ⟨le_max_left 1 _, ?_, ?_⟩
  · intro h1
    have hfl : (1 : ℤ) ≤ ⌊(n : ℚ) * c⌋ := by
      rw [Int.le_floor]
      exact_mod_cast h1
    have hmax : max 1 (Int.toNat ⌊(n : ℚ) * c⌋) = Int.toNat ⌊(n : ℚ) * c⌋ :=
      max_eq_right (by omega)
    have htn : ((Int.toNat ⌊(n : ℚ) * c⌋ : ℕ) : ℚ) = ((⌊(n : ℚ) * c⌋ : ℤ) : ℚ) := by
      exact_mod_cast Int.toNat_of_nonneg (by omega)
    rw [hmax, htn]
    exact ⟨Int.floor_le _, Int.lt_floor_add_one _⟩
  · intro h1
    have hlt : ⌊(n : ℚ) * c⌋ < 1 := Int.floor_lt.mpr (by exact_mod_cast h1)
    have h0 : Int.toNat ⌊(n : ℚ) * c⌋ = 0 := Int.toNat_eq_zero.mpr (by omega)
    rw [h0]
    omega

/-- Counterexample to C8: at composed size 3×3 and scale 0.5 the display
buffer is 1×1 — `int(W*scale)` truncates 1.5 down — while the claim's
`round(W × scale)` formula gives 2×2 (`round(1.5) = 2`). -/
theorem render_scaled_dims_not_round :
    render_scaled_dims 3 3 (1/2) = (1, 1) ∧
    (max 1 (pyRound ((3 : ℚ) * (1/2)))).toNat = 2 ∧
    ¬ render_scaled_dims 3 3 (1/2) =
        ((max 1 (pyRound ((3 : ℚ) * (1/2)))).toNat,
         (max 1 (pyRound ((3 : ℚ) * (1/2)))).toNat) := by
  have hfloor : ⌊(3/2 : ℚ)⌋ = 1 := Int.floor_eq_iff.mpr (by norm_num)
  have hpr : pyRound ((3 : ℚ) * (1/2)) = 2 := by
    rw [pyRound, show ((3 : ℚ) * (1/2)) = 3/2 by norm_num, hfloor]
    norm_num
  have e1 : render_scaled_dims 3 3 (1/2) = (1, 1) := by
    show (max 1 (Int.toNat ⌊((3 : ℕ) : ℚ) * max (1/20) (min 3 (1/2 : ℚ))⌋),
          max 1 (Int.toNat ⌊((3 : ℕ) : ℚ) * max (1/20) (min 3 (1/2 : ℚ))⌋)) = (1, 1)
    rw [show ((3 : ℕ) : ℚ) * max (1/20) (min 3 (1/2 : ℚ)) = 3/2 by
      norm_num [min_def, max_def], hfloor]
    rfl
  refine ⟨e1, ?_, ?_⟩
  · rw [hpr]
    rfl
  · rw [e1, hpr]
    decide

/-- C8 as amended: `render_preview_scaled` never writes the cached
full-resolution composed image, and the display-buffer dimensions are
`max(1, ⌊W·s⌋) × max(1, ⌊H·s⌋)` where `s` is the scale clamped into
`[0.05, 3.0]` (floor, not round: Python `int()` truncates), each dimension
at least 1. -/
theorem render_scaled_dims_spec (W H : Nat) (s : ℚ) :
    (∀ (live : Bool) (st : PreviewState),
      (render_preview_scaled live st).previewImgFull = st.previewImgFull) ∧
    1 ≤ (render_scaled_dims W H s).1 ∧ 1 ≤ (render_scaled_dims W H s).2 ∧
    (1 ≤ (W : ℚ) * max (1/20) (min 3 s) →
      (((render_scaled_dims W H s).1 : ℚ) ≤ (W : ℚ) * max (1/20) (min 3 s) ∧
        (W : ℚ) * max (1/20) (min 3 s) < ((render_scaled_dims W H s).1 : ℚ) + 1)) ∧
    ((W : ℚ) * max (1/20) (min 3 s) < 1 → (render_scaled_dims W H s).1 = 1) ∧
    (1 ≤ (H : ℚ) * max (1/20) (min 3 s) →
      (((render_scaled_dims W H s).2 : ℚ) ≤ (H : ℚ) * max (1/20) (min 3 s) ∧
        (H : ℚ) * max (1/20) (min 3 s) < ((render_scaled_dims W H s).2 : ℚ) + 1)) ∧
    ((H : ℚ) * max (1/20) (min 3 s) < 1 → (render_scaled_dims W H s).2 = 1) := by
  obtain ⟨hw1, hw2, hw3⟩ := scaled_dim_spec W (max (1/20) (min 3 s))
  obtain ⟨hh1, hh2, hh3⟩ := scaled_dim_spec H (max (1/20) (min 3 s))
  refine ⟨?_, hw1, hh1, hw2, hw3, hh2, hh3⟩
  intro live st
  cases hst : st.previewImgFull with
  | none => simp [render_preview_scaled, hst]
  | some img =>
    simp only [render_preview_scaled, hst]
    split
    · rfl
    · exact hst

/-- Witness for C8 (amended): the floor characterization applied at
composed size 3×3, scale 0.5 (`3 × 0.5 = 1.5 ≥ 1`). -/
theorem render_scaled_dims_spec_witness :
    ((render_scaled_dims 3 3 (1/2)).1 : ℚ) ≤ ((3 : ℕ) : ℚ) * max (1/20) (min 3 (1/2 : ℚ)) ∧
    ((3 : ℕ) : ℚ) * max (1/20) (min 3 (1/2 : ℚ)) < ((render_scaled_dims 3 3 (1/2)).1 : ℚ) + 1 :=
  (render_scaled_dims_spec 3 3 (1/2)).2.2.2.1 (by norm_num [min_def, max_def])

/-! ## Extension filtering (C6) -/

/-- Source line 17: the supported extension set `VALID_EXTS`. -/
def VALID_EXTS : List String :=
  [".jpg", ".jpeg", ".png", ".bmp", ".gif", ".webp", ".tif", ".tiff"]

/-- The basename: the characters after the last `/` (POSIX `os.path`). -/
def basenameChars (p : String) : List Char :=
  p.data.foldl (fun acc c => if c = '/' then [] else acc ++ [c]) []

/-- The extension `os.path.splitext(path)[1]`: taken from the last dot of the
basename, empty when the basename has no dot or nothing but dots before
its last dot (so `.cshrc` has no extension). -/
def splitext_ext (p : String) : String :=
  let base := basenameChars p
  if base.contains '.' then
    let after := (base.reverse.takeWhile (fun c => c != '.')).reverse
    let before := base.take (base.length - after.length - 1)
    if before.all (fun c => c == '.') then "" else String.mk ('.' :: after)
  else ""

/-- Source lines 19-20, `is_image_file`:
`os.path.splitext(path)[1].lower() in VALID_EXTS`. -/
def is_image_file (path : String) : Bool :=
  VALID_EXTS.contains (strLower (splitext_ext path))

/-- Source lines 415-422, `_add_paths`: only paths passing `is_image_file`
are appended to the working list (the drop handler, lines 393-404, applies
the same filter; when nothing passes, the list is simply unchanged). -/
def add_paths (working paths : List String) : List String :=
  working ++ paths.filter (fun p => is_image_file p)

/-- Source line 46: `stitch_images` calls `open_image_safe` on every path
it is given, in order; neither function checks the extension
(`open_image_safe`, lines 22-25, goes straight to `Image.open`).  This
definition records which paths reach a decode attempt. -/
def stitch_decoded_paths (paths : List String) : List String := paths

/-- Counterexample to C6: the loader itself rejects nothing — handed the
unsupported path `notes.txt`, `stitch_images`/`open_image_safe` attempts
to decode it; no extension check happens at decode time. -/
theorem loader_decodes_unsupported :
    is_image_file "notes.txt" = false ∧
    "notes.txt" ∈ stitch_decoded_paths ["notes.txt"] := by
  constructor
  · decide
  · simp [stitch_decoded_paths]

/-- C6 as amended: the extension filter lives at list-addition time, not in
the loader: after `_add_paths` every entry of the working list was either
already there or passes `is_image_file`, so unsupported extensions never
reach the composition step through the UI; `open_image_safe` and
`stitch_images` themselves check no extension and attempt to decode any
path handed to them. -/
theorem add_paths_filters (working paths : List String) :
    (∀ p, p ∈ add_paths working paths → p ∈ working ∨ is_image_file p = true) ∧
    stitch_decoded_paths paths = paths := by
  constructor
  · intro p hp
    rw [add_paths] at hp
    rcases List.mem_append.mp hp with h | h
    · exact Or.inl h
    · exact Or.inr (List.mem_filter.mp h).2
  · rfl

/-- Witness for C6 (amended): `a.png` survives the add-filter into an empty
working list, and the decode-attempt list is the path list itself. -/
theorem add_paths_filters_witness :
    ("a.png" ∈ ([] : List String) ∨ is_image_file "a.png" = true) ∧
    stitch_decoded_paths ["b.txt"] = ["b.txt"] :=
  ⟨(add_paths_filters [] ["a.png", "b.txt"]).1 "a.png" (by decide),
   (add_paths_filters [] ["b.txt"]).2⟩

/-! ## The list folds compute the maximum and minimum -/

theorem foldl_max_spec (xs : List Nat) :
    ∀ a, (xs.foldl max a = a ∨ xs.foldl max a ∈ xs) ∧
      a ≤ xs.foldl max a ∧ ∀ x ∈ xs, x ≤ xs.foldl max a := by
  induction xs with
  | nil =>
    intro a
    exact ⟨Or.inl rfl, Nat.le_refl a, by simp⟩
  | cons y ys ih =>
    intro a
    obtain ⟨hmem, hle, hall⟩ := ih (max a y)
    rw [List.foldl_cons]
    refine ⟨?_, le_trans (le_max_left a y) hle, ?_⟩
    · rcases hmem with h | h
      · rcases Nat.le_total a y with hay | hay
        · refine Or.inr ?_
          rw [h, max_eq_right hay]
          exact List.mem_cons_self y ys
        · exact Or.inl (h.trans (max_eq_left hay))
      · exact Or.inr (List.mem_cons_of_mem y h)
    · intro x hx
      rcases List.mem_cons.mp hx with rfl | hx
      · exact le_trans (le_max_right a x) hle
      · exact hall x hx

theorem foldl_min_spec (xs : List Nat) :
    ∀ a, (xs.foldl min a = a ∨ xs.foldl min a ∈ xs) ∧
      xs.foldl min a ≤ a ∧ ∀ x ∈ xs, xs.foldl min a ≤ x := by
  induction xs with
  | nil =>
    intro a
    exact ⟨Or.inl rfl, Nat.le_refl a, by simp⟩
  | cons y ys ih =>
    intro a
    obtain ⟨hmem, hle, hall⟩ := ih (min a y)
    rw [List.foldl_cons]
    refine ⟨?_, le_trans hle (min_le_left a y), ?_⟩
    · rcases hmem with h | h
      · rcases Nat.le_total a y with hay | hay
        · exact Or.inl (h.trans (min_eq_left hay))
        · refine Or.inr ?_
          rw [h, min_eq_right hay]
          exact List.mem_cons_self y ys
      · exact Or.inr (List.mem_cons_of_mem y h)
    · intro x hx
      rcases List.mem_cons.mp hx with rfl | hx
      · exact le_trans hle (min_le_right a x)
      · exact hall x hx

/-- On a non-empty list `maxList` is the maximum: a member that bounds
every element from above (so `max(widths)` in the source is the claim's
"maximum of the input widths"). -/
theorem maxList_is_max (l : List Nat) (hne : l ≠ []) :
    maxList l ∈ l ∧ ∀ x ∈ l, x ≤ maxList l := by
  cases l with
  | nil => exact absurd rfl hne
  | cons a xs =>
    obtain ⟨hmem, hle, hall⟩ := foldl_max_spec xs a
    rw [maxList]
    refine ⟨?_, ?_⟩
    · rcases hmem with h | h
      · rw [h]
        exact List.mem_cons_self a xs
      · exact List.mem_cons_of_mem a h
    · intro x hx
      rcases List.mem_cons.mp hx with rfl | hx
      · exact hle
      · exact hall x hx

/-- On a non-empty list `minList` is the minimum. -/
theorem minList_is_min (l : List Nat) (hne : l ≠ []) :
    minList l ∈ l ∧ ∀ x ∈ l, minList l ≤ x := by
  cases l with
  | nil => exact absurd rfl hne
  | cons a xs =>
    obtain ⟨hmem, hle, hall⟩ := foldl_min_spec xs a
    rw [minList]
    refine ⟨?_, ?_⟩
    · rcases hmem with h | h
      · rw [h]
        exact List.mem_cons_self a xs
      · exact List.mem_cons_of_mem a h
    · intro x hx
      rcases List.mem_cons.mp hx with rfl | hx
      · exact hle
      · exact hall x hx

end ImageStitcher
